import Mathlib

/-!
# logserial: a verification development

A shallow embedding of `github.com/borud/logserial`:

* `pkg/model/message.go`      : `Message`
* `pkg/store/sqlitestore`     : `Log`, `List`, `createSchema`, `trimCommentsAndWhitespace`
* `cmd/logserial/main.go`     : `logSerial`

Go strings are Lean `String`s; the scanner and the regular expression work on their
characters.  The database is the content of the single table `log`, a list of rows in
insertion order.  Everything the environment decides (whether a database call fails,
whether the context is done, whether the channel can take a value, what the clock shows,
what the serial port delivers) is an explicit argument.
-/

namespace Logserial

/-! ## pkg/model/message.go -/

/-- Message represents a log message: `TS` is a `uint64`, `Device` and `Msg` are strings. -/
structure Message where
  TS : Nat
  Device : String
  Msg : String
  deriving DecidableEq, Repr

/-! ## pkg/store/sqlitestore/sqlitestore.go -/

/-- Go `error` values: `ErrListCancelled` and any other error, named by its text. -/
inductive Error where
  | ErrListCancelled
  | other (text : String)
  deriving DecidableEq, Repr

/-- The content of table `log`: rows in insertion order. -/
abbrev Table := List Message

/-- The store `New(":memory:")` returns: the schema is created, table `log` is empty. -/
def New : Table := []

namespace sqliteStore

/-- The method `Log`: `INSERT INTO log (ts,device,msg) VALUES(:ts, :device, :msg)`.
`fault` is the error the database returns for the statement (`none` when it succeeds);
a failed insert leaves the table as it was.  The result is the returned error and the
table afterwards. -/
def Log (tbl : Table) (fault : Option Error) (msg : Message) : Option Error × Table :=
  match fault with
  | some e => (some e, tbl)
  | none => (none, tbl ++ [msg])

end sqliteStore

/-- Calling `Log` once per message, in order; `fault i` is what the database answers to
the `i`-th call (counted from `n`).  Returns the list of returned errors and the table. -/
def LogAll (fault : Nat → Option Error) : Nat → Table → List Message → List (Option Error) × Table
  | _, tbl, [] => ([], tbl)
  | n, tbl, m :: ms =>
    let r := sqliteStore.Log tbl (fault n) m
    let rest := LogAll fault (n + 1) r.2 ms
    (r.1 :: rest.1, rest.2)

/-- The order of `ORDER BY ts DESC`: `a` may come before `b`. -/
def tsDesc (a b : Message) : Prop := b.TS ≤ a.TS

instance : DecidableRel tsDesc := fun a b => inferInstanceAs (Decidable (b.TS ≤ a.TS))

instance : IsTotal Message tsDesc := ⟨fun a b => Nat.le_total b.TS a.TS⟩

instance : IsTrans Message tsDesc := ⟨fun _ _ _ hab hbc => Nat.le_trans hbc hab⟩

/-- The clause `ORDER BY ts DESC`.  SQL leaves the order of rows with equal `ts` open;
here they come latest-inserted first, as a backward scan of the table yields them.
No theorem depends on that order. -/
def orderByTsDesc (rows : List Message) : List Message :=
  List.insertionSort tsDesc rows.reverse

/-- The query `SELECT * FROM log WHERE ts >= ? AND ts < ? ORDER BY ts DESC`. -/
def selectRange (tbl : Table) (since til : Int) : List Message :=
  orderByTsDesc (tbl.filter fun r => decide (since ≤ (r.TS : Int)) && decide ((r.TS : Int) < til))

/-- The query `SELECT * FROM log WHERE ts >= ? AND ts < ? AND device = ? ORDER BY ts DESC`. -/
def selectRangeDevice (tbl : Table) (since til : Int) (dev : String) : List Message :=
  orderByTsDesc (tbl.filter fun r =>
    decide (since ≤ (r.TS : Int)) && decide ((r.TS : Int) < til) && decide (r.Device = dev))

/-- What the runtime finds at the `select` of one loop iteration: whether `ctx.Done()` is
ready, whether the send on `msgChan` can proceed, and which of the two it picks when both
can proceed (Go picks one of the ready cases at random). -/
structure SelectState where
  ctxDone : Bool
  canSend : Bool
  pickSend : Bool
  deriving DecidableEq, Repr

/-- The case a `select { case <-ctx.Done(): ..; case msgChan <- msg: }` takes. -/
inductive Chosen where
  | done
  | send
  | blocks
  deriving DecidableEq, Repr

/-- Go's `select` over the two cases: a ready case is taken; with both ready the runtime
picks; with none ready the goroutine stays blocked. -/
def select2 (s : SelectState) : Chosen :=
  match s.ctxDone, s.canSend with
  | true, true => if s.pickSend then .send else .done
  | true, false => .done
  | false, true => .send
  | false, false => .blocks

/-- The environment of one `List` call. `sel i` and `scanErr i` belong to the `i`-th row
of the result set. -/
structure ListEnv where
  /-- whether `ctx.Done()` is ready when `List` is entered -/
  cancelledAtEntry : Bool
  /-- the error `Queryx` returns -/
  queryErr : Option Error
  /-- the error `StructScan` returns for the row -/
  scanErr : Nat → Option Error
  /-- the state of the `select` for the row -/
  sel : Nat → SelectState

/-- How a call ends: it returns an error value (`none` is `nil`), or it never returns
because it stays blocked in the `select`. -/
inductive Outcome where
  | returned (err : Option Error)
  | blocked
  deriving DecidableEq, Repr

/-- What a `List` call did. -/
structure ListRun where
  /-- number of queries run against the database -/
  queries : Nat
  /-- the values sent on `msgChan`, in order -/
  sent : List Message
  /-- whether `msgChan` was closed -/
  closed : Bool
  outcome : Outcome
  deriving DecidableEq, Repr

namespace sqliteStore

/-- The loop `for rows.Next() { StructScan; select {..} }` from row number `i` on:
the values sent and how the loop ends. -/
def listLoop (env : ListEnv) : Nat → List Message → List Message × Outcome
  | _, [] => ([], .returned none)
  | i, row :: rows =>
    match env.scanErr i with
    | some e => ([], .returned (some e))
    | none =>
      match select2 (env.sel i) with
      | .done => ([], .returned (some .ErrListCancelled))
      | .blocks => ([], .blocked)
      | .send =>
        let r := listLoop env (i + 1) rows
        (row :: r.1, r.2)

/-- The body of `List` without the deferred `close(msgChan)`: number of queries, values
sent, outcome. `since` and `til` are `since.UnixMilli()` and `until.UnixMilli()`. -/
def listBody (tbl : Table) (env : ListEnv) (since til : Int) (device : List String) :
    Nat × List Message × Outcome :=
  if env.cancelledAtEntry then (0, [], .returned (some .ErrListCancelled))
  else
    match env.queryErr with
    | some e => (1, [], .returned (some e))
    | none =>
      let rows :=
        match device with
        | [] => selectRange tbl since til
        | d :: _ => selectRangeDevice tbl since til d
      let r := listLoop env 0 rows
      (1, r.1, r.2)

/-- The method `List`: the deferred function closes `msgChan` whenever the body returns. -/
def List (tbl : Table) (env : ListEnv) (since til : Int) (device : List String) : ListRun :=
  let b := listBody tbl env since til device
  { queries := b.1
    sent := b.2.1
    closed := match b.2.2 with
      | .returned _ => true
      | .blocked => false
    outcome := b.2.2 }

end sqliteStore

/-- The rows the query of `List` returns. -/
def queryRows (tbl : Table) (since til : Int) (device : List String) : List Message :=
  match device with
  | [] => selectRange tbl since til
  | d :: _ => selectRangeDevice tbl since til d

/-- The context is never cancelled: `ctx.Done()` is ready neither at entry nor at any
`select` of the loop. -/
def ListEnv.neverCancelled (env : ListEnv) : Prop :=
  env.cancelledAtEntry = false ∧ ∀ i, (env.sel i).ctxDone = false

/-- The database answers the query and every row scan without error. -/
def ListEnv.dbOk (env : ListEnv) : Prop :=
  env.queryErr = none ∧ ∀ i, env.scanErr i = none

/-- The receiving side takes every value: each send on `msgChan` can proceed. -/
def ListEnv.receiverReady (env : ListEnv) : Prop :=
  ∀ i, (env.sel i).canSend = true

/-- The records a `List(ctx, msgChan, since, until, device...)` call asks for, in the
words of the specification: `since.UnixMilli() <= ts < until.UnixMilli()` and, when a
device argument is given, `Device` equal to `device[0]`. -/
def requested (since til : Int) (device : List String) (r : Message) : Bool :=
  decide (since ≤ (r.TS : Int) ∧ (r.TS : Int) < til ∧ ∀ d, device.head? = some d → r.Device = d)

/-- An environment with a live context, a working database and a ready receiver. -/
def quietEnv : ListEnv :=
  { cancelledAtEntry := false
    queryErr := none
    scanErr := fun _ => none
    sel := fun _ => { ctxDone := false, canSend := true, pickSend := true } }

/-- An environment in which the context is cancelled after the first row was sent, while
the channel still has room and the runtime picks the send case. -/
def lateCancelEnv : ListEnv :=
  { cancelledAtEntry := false
    queryErr := none
    scanErr := fun _ => none
    sel := fun i => { ctxDone := decide (1 ≤ i), canSend := true, pickSend := true } }

/-- Three rows of device `foo`, as the tests log them. -/
def threeRows : Table :=
  [⟨1000, "foo", "bar number 0"⟩, ⟨1001, "foo", "bar number 1"⟩, ⟨1002, "foo", "bar number 2"⟩]

/-- Records of the two devices `foo` and `bar`, two of them with the same `ts`. -/
def mixedRows : List Message :=
  [⟨1000, "foo", "a"⟩, ⟨1001, "bar", "b"⟩, ⟨1001, "foo", "c"⟩, ⟨1002, "bar", "d"⟩,
   ⟨1003, "foo", "e"⟩]

/-- The environment of a call made after `cancel()`. -/
def cancelledEnv : ListEnv :=
  { cancelledAtEntry := true
    queryErr := none
    scanErr := fun _ => none
    sel := fun _ => { ctxDone := true, canSend := true, pickSend := true } }

/-! ## bufio.Scanner with the default split function `ScanLines` -/

/-- The constant `bufio.MaxScanTokenSize`: the largest buffer the scanner allocates. -/
def MaxScanTokenSize : Nat := 64 * 1024

/-- Number of bytes of the UTF-8 encoding of a piece of text. -/
def byteLen (data : List Char) : Nat :=
  (data.map Char.utf8Size).sum

/-- The function `dropCR` drops a terminal `\r` from the data. -/
def dropCR (data : List Char) : List Char :=
  if data.getLast? = some '\r' then data.dropLast else data

/-- The tokens successive `Scan` calls return on the input that is still unread, where
`cur` holds, in reverse, the bytes of the line read so far.  A line ends at `\n`; what is
left at the end of the input is a last line when it is not empty; a line that fills the
whole buffer without a `\n` ends the scan (`ErrTooLong`). -/
def scanFrom : List Char → List Char → List (List Char)
  | cur, [] => if cur = [] then [] else [dropCR cur.reverse]
  | cur, c :: rest =>
    if c = '\n' then dropCR cur.reverse :: scanFrom [] rest
    else if MaxScanTokenSize ≤ byteLen (c :: cur) then []
    else scanFrom (c :: cur) rest

/-- The split function `ScanLines`: the lines a `bufio.Scanner` yields on `data` (what `scanner.Text()` shows
after each successful `scanner.Scan()`), each stripped of its end-of-line marker. -/
def ScanLines (data : List Char) : List (List Char) :=
  scanFrom [] data

/-! ## pkg/store/sqlitestore/schema.go -/

/-- The character classes the pattern uses. -/
inductive CharClass where
  /-- the class `.` : any character but `\n` -/
  | dot
  /-- the class `\s` : `[\t\n\f\r ]` -/
  | space
  deriving DecidableEq, Repr

/-- Membership of a character in a class. -/
def CharClass.has : CharClass → Char → Bool
  | .dot, c => c != '\n'
  | .space, c => c == '\t' || c == '\n' || c == '\x0c' || c == '\r' || c == ' '

/-- The regular expressions the pattern is built from. -/
inductive Regex where
  /-- a literal character -/
  | char (c : Char)
  /-- the anchor `^` without flag `m`: the beginning of the text -/
  | beginText
  /-- the anchor `$` without flag `m`: the end of the text -/
  | endText
  /-- the repetition `x*?` for a class `x`: as few as possible -/
  | lazyStar (cls : CharClass)
  /-- the repetition `x+` for a class `x`: as many as possible -/
  | plus (cls : CharClass)
  /-- the concatenation `ab` -/
  | cat (a b : Regex)
  /-- the alternation `a|b`, `a` preferred -/
  | alt (a b : Regex)
  deriving DecidableEq, Repr

/-- The repetition `x*?` followed by `k`: first without a further character, then with one more. -/
def lazyStarThen (cls : CharClass) (k : Nat → List Char → Option Nat) :
    Nat → List Char → Option Nat
  | pos, [] => k pos []
  | pos, c :: rest =>
    (k pos (c :: rest)).orElse fun _ =>
      if cls.has c then lazyStarThen cls k (pos + 1) rest else none

/-- The repetition `x*` followed by `k`: first with one more character, then without. -/
def greedyStarThen (cls : CharClass) (k : Nat → List Char → Option Nat) :
    Nat → List Char → Option Nat
  | pos, [] => k pos []
  | pos, c :: rest =>
    if cls.has c then
      (greedyStarThen cls k (pos + 1) rest).orElse fun _ => k pos (c :: rest)
    else k pos (c :: rest)

/-- Backtracking match of `re` at position `pos`, where `rest` is the text from `pos` on,
followed by `k`; the result is the position where the first match found ends.  This is
the leftmost-first preference of Go's `regexp`. -/
def Regex.matchThen : Regex → (Nat → List Char → Option Nat) → Nat → List Char → Option Nat
  | .char c, k, pos, rest =>
    match rest with
    | [] => none
    | d :: rest' => if d = c then k (pos + 1) rest' else none
  | .beginText, k, pos, rest => if pos = 0 then k pos rest else none
  | .endText, k, pos, rest => if rest = [] then k pos rest else none
  | .lazyStar cls, k, pos, rest => lazyStarThen cls k pos rest
  | .plus cls, k, pos, rest =>
    match rest with
    | [] => none
    | d :: rest' => if cls.has d then greedyStarThen cls k (pos + 1) rest' else none
  | .cat a b, k, pos, rest => a.matchThen (b.matchThen k) pos rest
  | .alt a b, k, pos, rest => (a.matchThen k pos rest).orElse fun _ => b.matchThen k pos rest

/-- The end of the match of `re` that starts at `pos`, if there is one. -/
def Regex.matchAt (re : Regex) (pos : Nat) (rest : List Char) : Option Nat :=
  re.matchThen (fun p _ => some p) pos rest

/-- The call `ReplaceAll(text, nil)` from position `pos` on: `skip` characters still belong to the
match found last and are dropped; otherwise a match starting here is dropped and a
character where no match starts is copied. -/
def replaceAllFrom (re : Regex) : Nat → Nat → List Char → List Char
  | _, _, [] => []
  | pos, skip + 1, _ :: rest => replaceAllFrom re (pos + 1) skip rest
  | pos, 0, c :: rest =>
    match re.matchAt pos (c :: rest) with
    | some e => if pos < e then replaceAllFrom re (pos + 1) (e - pos - 1) rest
                else c :: replaceAllFrom re (pos + 1) 0 rest
    | none => c :: replaceAllFrom re (pos + 1) 0 rest

/-- The call `re.ReplaceAll(text, nil)`: every match of `re` in `text` is removed. -/
def Regex.ReplaceAll (re : Regex) (text : List Char) : List Char :=
  replaceAllFrom re 0 0 text

/-- The pattern `--.*?\n$|^\s+$`, the regexp for matching comments and empty lines. -/
def commentsAndEmptyLinesRegex : Regex :=
  .alt
    (.cat (.char '-') (.cat (.char '-') (.cat (.lazyStar .dot) (.cat (.char '\n') .endText))))
    (.cat .beginText (.cat (.plus .space) .endText))

/-- The loop of `trimCommentsAndWhitespace` over the scanned lines: each line gets its
`\n` back, the matches of the pattern are removed, the rest is written to the builder. -/
def trimLines : List (List Char) → List Char
  | [] => []
  | line :: rest => commentsAndEmptyLinesRegex.ReplaceAll (line ++ ['\n']) ++ trimLines rest

/-- The function `trimCommentsAndWhitespace` removes comments and superfluous whitespace. -/
def trimCommentsAndWhitespace (s : String) : String :=
  String.mk (trimLines (ScanLines s.toList))

/-- The call `strings.Split(s, sep)` for a separator of one character; `cur` holds, in reverse,
the piece read so far. -/
def splitFrom (sep : Char) : List Char → List Char → List String
  | cur, [] => [String.mk cur.reverse]
  | cur, c :: rest =>
    if c = sep then String.mk cur.reverse :: splitFrom sep [] rest
    else splitFrom sep (c :: cur) rest

/-- The call `strings.Split(s, ";")`. -/
def splitStatements (s : String) : List String :=
  splitFrom ';' [] s.toList

/-- The loop of `createSchema` over the pieces of the schema, `n` counted from 0:
an empty statement is skipped, any other is executed; `execErr` is what the database
answers to a statement.  The result is the statements executed and the returned error,
which names the number `n+1` of the failed statement. -/
def createSchemaFrom (execErr : String → Option Error) : Nat → List String →
    List String × Option (Nat × String × Error)
  | _, [] => ([], none)
  | n, piece :: rest =>
    let statement := trimCommentsAndWhitespace piece
    if statement = "" then createSchemaFrom execErr (n + 1) rest
    else
      match execErr statement with
      | some e => ([statement], some (n + 1, statement, e))
      | none =>
        let r := createSchemaFrom execErr (n + 1) rest
        (statement :: r.1, r.2)

/-- The function `createSchema` for the embedded file `schema.sql` with content `schema`. -/
def createSchema (schema : String) (execErr : String → Option Error) :
    List String × Option (Nat × String × Error) :=
  createSchemaFrom execErr 0 (splitStatements schema)

/-! ## cmd/logserial/main.go -/

/-- The `serial.Mode` a port is opened with. -/
structure Mode where
  BaudRate : Nat
  DataBits : Nat
  /-- the value `serial.NoParity` is 0 -/
  Parity : Nat
  /-- the value `serial.OneStopBit` is 0 -/
  StopBits : Nat
  deriving DecidableEq, Repr

/-- What `logSerial` does that is visible from outside, in order. -/
inductive Event where
  /-- the call `serial.Open(devicePath, mode)` -/
  | openPort (device : String) (mode : Mode)
  /-- the call `slog.Debug("unable to open serial port", "device", devicePath, "err", err)` -/
  | debugUnableToOpen (device : String) (err : Error)
  /-- the call `time.Sleep` of so many milliseconds -/
  | sleep (ms : Nat)
  /-- the call `db.Log(msg)` -/
  | logCall (msg : Message)
  /-- the call `slog.Info("", "device", devicePath, "msg", scanner.Text())` -/
  | info (device : String) (msg : String)
  /-- the call `slog.Error("lost connection", "device", devicePath)` -/
  | lostConnection (device : String)
  deriving DecidableEq, Repr

/-- What one attempt to open the port meets: an error, or a port that delivers `data`
before the stream ends (end of file or read error). -/
inductive OpenResult where
  | failed (err : Error)
  | port (data : String)
  deriving DecidableEq, Repr

/-- The conversion `uint64(x)` of an `int64`. -/
def uint64 (x : Int) : Nat :=
  (x % 2 ^ 64).toNat

/-- The mode `logSerial` opens every port with. -/
def portMode : Mode :=
  { BaudRate := 115200, DataBits := 8, Parity := 0, StopBits := 0 }

/-- The loop `for scanner.Scan() { .. }` over the lines the scanner yields.  `n` counts
the `Log` calls made so far: `now n` is `time.Now().UnixMilli()` at the call and
`logFault n` what the database answers.  The value `db.Log` returns is not used.
The result is the events, the new count and the table. -/
def readLoop (now : Nat → Int) (logFault : Nat → Option Error) (devicePath : String) :
    List (List Char) → Nat → Table → List Event × Nat × Table
  | [], n, tbl => ([], n, tbl)
  | line :: rest, n, tbl =>
    let msg := String.mk line
    let m : Message := { TS := uint64 (now n), Device := devicePath, Msg := msg }
    let r := sqliteStore.Log tbl (logFault n) m
    let t := readLoop now logFault devicePath rest (n + 1) r.2
    (.logCall m :: .info devicePath msg :: t.1, t.2)

/-- The function `logSerial`: the endless loop, run for as long as `script` says what each attempt to
open the port meets (the process is stopped from outside where the script ends). -/
def logSerial (now : Nat → Int) (logFault : Nat → Option Error) (devicePath : String) :
    List OpenResult → Nat → Table → List Event × Nat × Table
  | [], n, tbl => ([], n, tbl)
  | .failed err :: more, n, tbl =>
    let t := logSerial now logFault devicePath more n tbl
    (.openPort devicePath portMode :: .debugUnableToOpen devicePath err :: .sleep 100 :: t.1, t.2)
  | .port data :: more, n, tbl =>
    let s := readLoop now logFault devicePath (ScanLines data.toList) n tbl
    let t := logSerial now logFault devicePath more s.2.1 s.2.2
    (.openPort devicePath portMode :: (s.1 ++ .lostConnection devicePath :: t.1), t.2)

/-- The messages handed to `db.Log`, in order. -/
def logCalls : List Event → List Message
  | [] => []
  | .logCall m :: rest => m :: logCalls rest
  | _ :: rest => logCalls rest

/-- The lines read in the session an attempt to open the port leads to. -/
def sessionLines : OpenResult → List (List Char)
  | .failed _ => []
  | .port data => ScanLines data.toList

/-- The lines read in all sessions of a script, in order. -/
def scriptLines (script : List OpenResult) : List (List Char) :=
  (script.map sessionLines).flatten

/-- The error an operational event reports, if it reports one. -/
def Event.reportedError : Event → Option Error
  | .debugUnableToOpen _ err => some err
  | _ => none

/-- What may directly follow an event in a run of `logSerial`: after the report of a
failed open comes the sleep of 100 ms, after the sleep and after the report of a lost
connection comes the next attempt to open the port. -/
def follows : Event → Event → Prop
  | .openPort _ _, next =>
    (∃ d e, next = .debugUnableToOpen d e) ∨ (∃ m, next = .logCall m) ∨
      (∃ d, next = .lostConnection d)
  | .debugUnableToOpen _ _, next => next = .sleep 100
  | .sleep _, next => ∃ d m, next = .openPort d m
  | .logCall msg, next => next = .info msg.Device msg.Msg
  | .info _ _, next => (∃ m, next = .logCall m) ∨ (∃ d, next = .lostConnection d)
  | .lostConnection _, next => ∃ d m, next = .openPort d m

/-- The events of one failed attempt to open the port. -/
def retryEvents (devicePath : String) (err : Error) : List Event :=
  [.openPort devicePath portMode, .debugUnableToOpen devicePath err, .sleep 100]

/-- The events of reading and logging the lines `msgs` one after the other, as the
specification words it: for each line a record with the capture time, the configured
device and the line is handed to the store, and the line is reported; `n` numbers the
clock readings. -/
def lineEvents (now : Nat → Int) (devicePath : String) : Nat → List String → List Event
  | _, [] => []
  | n, msg :: rest =>
    .logCall { TS := uint64 (now n), Device := devicePath, Msg := msg } ::
      .info devicePath msg :: lineEvents now devicePath (n + 1) rest

/-- The events that belong to one attempt to open the port: a failed attempt is the
attempt, its report and the sleep of 100 ms; an attempt that succeeds is the attempt, the
reading and logging of the lines of the stream, and the report of the lost connection,
with no sleep. -/
def attemptEvents (now : Nat → Int) (devicePath : String) : OpenResult → List Event → Prop
  | .failed err, seg =>
    seg = [.openPort devicePath portMode, .debugUnableToOpen devicePath err, .sleep 100]
  | .port data, seg =>
    ∃ k, seg = .openPort devicePath portMode ::
      (lineEvents now devicePath k ((ScanLines data.toList).map String.mk) ++
        [.lostConnection devicePath])

/-- Whether an event is a sleep. -/
def Event.isSleep : Event → Bool
  | .sleep _ => true
  | _ => false

/-- Whether an attempt to open the port failed. -/
def OpenResult.isFailed : OpenResult → Bool
  | .failed _ => true
  | .port _ => false

/-! ## Theorems: the store -/

theorem select2_live (s : SelectState) (h : s.ctxDone = false) :
    select2 s = .send ∨ select2 s = .blocks := by
  cases hs : s.canSend <;> simp [select2, h, hs]

theorem listLoop_live (env : ListEnv) (hctx : ∀ i, (env.sel i).ctxDone = false)
    (hscan : ∀ i, env.scanErr i = none) (rows : List Message) :
    ∀ i, (sqliteStore.listLoop env i rows).2 ≠ .blocked →
      sqliteStore.listLoop env i rows = (rows, .returned none) := by
  induction rows with
  | nil => intro i _; rfl
  | cons row rows ih =>
    intro i h
    rcases select2_live (env.sel i) (hctx i) with hs | hs
    · simp only [sqliteStore.listLoop, hscan i, hs] at h ⊢
      rw [ih (i + 1) h]
    · simp [sqliteStore.listLoop, hscan i, hs] at h

theorem listLoop_ready (env : ListEnv) (hctx : ∀ i, (env.sel i).ctxDone = false)
    (hscan : ∀ i, env.scanErr i = none) (hrecv : ∀ i, (env.sel i).canSend = true)
    (rows : List Message) :
    ∀ i, sqliteStore.listLoop env i rows = (rows, .returned none) := by
  induction rows with
  | nil => intro i; rfl
  | cons row rows ih =>
    intro i
    have hs : select2 (env.sel i) = .send := by simp [select2, hctx i, hrecv i]
    simp only [sqliteStore.listLoop, hscan i, hs]
    rw [ih (i + 1)]

theorem queryRows_eq (tbl : Table) (since til : Int) (device : List String) :
    queryRows tbl since til device = orderByTsDesc (tbl.filter (requested since til device)) := by
  cases device with
  | nil =>
    simp only [queryRows, selectRange]
    congr 1
    apply List.filter_congr
    intro r _
    simp [requested]
  | cons d ds =>
    simp only [queryRows, selectRangeDevice]
    congr 1
    apply List.filter_congr
    intro r _
    simp [requested, Bool.and_assoc]

theorem queryRows_perm (tbl : Table) (since til : Int) (device : List String) :
    (queryRows tbl since til device).Perm (tbl.filter (requested since til device)) := by
  rw [queryRows_eq]
  exact (List.perm_insertionSort _ _).trans (List.reverse_perm _)

theorem queryRows_sorted (tbl : Table) (since til : Int) (device : List String) :
    (queryRows tbl since til device).Sorted tsDesc := by
  rw [queryRows_eq]
  exact List.sorted_insertionSort _ _

theorem List_live (tbl : Table) (env : ListEnv) (since til : Int) (device : List String)
    (hctx : env.neverCancelled) (hdb : env.dbOk)
    (hrun : (sqliteStore.List tbl env since til device).outcome ≠ .blocked) :
    sqliteStore.List tbl env since til device =
      { queries := 1, sent := queryRows tbl since til device, closed := true,
        outcome := .returned none } := by
  have hbody : sqliteStore.listBody tbl env since til device =
      (1, (sqliteStore.listLoop env 0 (queryRows tbl since til device)).1,
        (sqliteStore.listLoop env 0 (queryRows tbl since til device)).2) := by
    simp only [sqliteStore.listBody, hctx.1, hdb.1, queryRows]
    cases device <;> simp
  have hloop := listLoop_live env hctx.2 hdb.2 (queryRows tbl since til device) 0
    (by simpa [sqliteStore.List, hbody] using hrun)
  simp [sqliteStore.List, hbody, hloop]

theorem List_ready (tbl : Table) (env : ListEnv) (since til : Int) (device : List String)
    (hctx : env.neverCancelled) (hdb : env.dbOk) (hrecv : env.receiverReady) :
    sqliteStore.List tbl env since til device =
      { queries := 1, sent := queryRows tbl since til device, closed := true,
        outcome := .returned none } := by
  apply List_live tbl env since til device hctx hdb
  have hbody : sqliteStore.listBody tbl env since til device =
      (1, (sqliteStore.listLoop env 0 (queryRows tbl since til device)).1,
        (sqliteStore.listLoop env 0 (queryRows tbl since til device)).2) := by
    simp only [sqliteStore.listBody, hctx.1, hdb.1, queryRows]
    cases device <;> simp
  simp [sqliteStore.List, hbody, listLoop_ready env hctx.2 hdb.2 hrecv]

theorem quietEnv_neverCancelled : quietEnv.neverCancelled := ⟨rfl, fun _ => rfl⟩

theorem quietEnv_dbOk : quietEnv.dbOk := ⟨rfl, fun _ => rfl⟩

theorem quietEnv_receiverReady : quietEnv.receiverReady := fun _ => rfl

/-- C1: a `List` call that runs to completion (it is not left blocked, and the database
answers without error) with a context that is never cancelled sends exactly the stored
rows with `since.UnixMilli() <= ts < until.UnixMilli()` and, when a device argument is
given, `Device = device[0]`, each stored row once, in non-increasing `ts` order, and
returns `nil`. -/
theorem List_sends_requested_rows (tbl : Table) (env : ListEnv) (since til : Int)
    (device : List String) (hctx : env.neverCancelled) (hdb : env.dbOk)
    (hrun : (sqliteStore.List tbl env since til device).outcome ≠ .blocked) :
    ((sqliteStore.List tbl env since til device).sent).Perm
        (tbl.filter (requested since til device)) ∧
      (∀ m, m ∈ (sqliteStore.List tbl env since til device).sent ↔
        m ∈ tbl ∧ since ≤ (m.TS : Int) ∧ (m.TS : Int) < til ∧
          ∀ d, device.head? = some d → m.Device = d) ∧
      ((sqliteStore.List tbl env since til device).sent).Sorted (fun a b => b.TS ≤ a.TS) ∧
      (sqliteStore.List tbl env since til device).outcome = .returned none := by
  rw [List_live tbl env since til device hctx hdb hrun]
  refine ⟨queryRows_perm _ _ _ _, ?_, queryRows_sorted _ _ _ _, rfl⟩
  intro m
  rw [(queryRows_perm tbl since til device).mem_iff]
  simp [requested]

theorem List_sends_requested_rows_witness :
    quietEnv.neverCancelled ∧ quietEnv.dbOk ∧
      (sqliteStore.List threeRows quietEnv 1001 2000 ["foo"]).outcome ≠ .blocked ∧
      ((sqliteStore.List threeRows quietEnv 1001 2000 ["foo"]).sent).Perm
        (threeRows.filter (requested 1001 2000 ["foo"])) ∧
      (sqliteStore.List threeRows quietEnv 1001 2000 ["foo"]).outcome = .returned none :=
  have h := List_sends_requested_rows threeRows quietEnv 1001 2000 ["foo"]
    quietEnv_neverCancelled quietEnv_dbOk (by decide)
  ⟨quietEnv_neverCancelled, quietEnv_dbOk, by decide, h.1, h.2.2.2⟩

theorem LogAll_all_nil (fault : Nat → Option Error) (recs : List Message) :
    ∀ n tbl, (∀ e ∈ (LogAll fault n tbl recs).1, e = none) →
      (LogAll fault n tbl recs).2 = tbl ++ recs := by
  induction recs with
  | nil => intro n tbl _; simp [LogAll]
  | cons m ms ih =>
    intro n tbl h
    simp only [LogAll, List.mem_cons, forall_eq_or_imp] at h ⊢
    obtain ⟨h1, h2⟩ := h
    cases hf : fault n with
    | some e => simp [sqliteStore.Log, hf] at h1
    | none =>
      simp only [sqliteStore.Log, hf] at h2 ⊢
      rw [ih (n + 1) (tbl ++ [m]) h2]
      simp

theorem filter_requested_all (recs : List Message) (since til : Int)
    (hwin : ∀ r ∈ recs, since ≤ (r.TS : Int) ∧ (r.TS : Int) < til) :
    recs.filter (requested since til []) = recs := by
  rw [List.filter_eq_self]
  intro r hr
  simp [requested, hwin r hr]

theorem filter_requested_device (recs : List Message) (since til : Int) (dev : String)
    (rest : List String) (hwin : ∀ r ∈ recs, since ≤ (r.TS : Int) ∧ (r.TS : Int) < til) :
    recs.filter (requested since til (dev :: rest)) =
      recs.filter (fun r => decide (r.Device = dev)) := by
  apply List.filter_congr
  intro r hr
  simp [requested, hwin r hr]

/-- C2: after `Log` was called once for each of N records with pairwise distinct
timestamps on a fresh store, every call returning `nil`, a `List` call without device
argument, with a context that is never cancelled and a window holding all N timestamps,
delivers exactly those N records, in strictly descending `TS` order, closes the channel
and returns `nil`. -/
theorem Log_List_roundtrip (recs : List Message) (fault : Nat → Option Error)
    (env : ListEnv) (since til : Int)
    (hts : (recs.map fun r => r.TS).Nodup)
    (hlog : ∀ e ∈ (LogAll fault 0 New recs).1, e = none)
    (hwin : ∀ r ∈ recs, since ≤ (r.TS : Int) ∧ (r.TS : Int) < til)
    (hctx : env.neverCancelled) (hdb : env.dbOk) (hrecv : env.receiverReady) :
    ((sqliteStore.List (LogAll fault 0 New recs).2 env since til []).sent).Perm recs ∧
      ((sqliteStore.List (LogAll fault 0 New recs).2 env since til []).sent).Sorted
        (fun a b => b.TS < a.TS) ∧
      (sqliteStore.List (LogAll fault 0 New recs).2 env since til []).closed = true ∧
      (sqliteStore.List (LogAll fault 0 New recs).2 env since til []).outcome =
        .returned none := by
  have htbl : (LogAll fault 0 New recs).2 = recs := by
    rw [LogAll_all_nil fault recs 0 New hlog]; simp [New]
  rw [htbl, List_ready recs env since til [] hctx hdb hrecv]
  have hperm : (queryRows recs since til []).Perm recs := by
    have h := queryRows_perm recs since til []
    rwa [filter_requested_all recs since til hwin] at h
  refine ⟨hperm, ?_, rfl, rfl⟩
  have hnodup : (queryRows recs since til []).Pairwise (fun a b => a.TS ≠ b.TS) := by
    have h : ((queryRows recs since til []).map fun r => r.TS).Nodup :=
      (hperm.map _).nodup_iff.mpr hts
    exact (List.pairwise_map.mp h)
  have hsorted : (queryRows recs since til []).Pairwise tsDesc := queryRows_sorted recs since til []
  exact (hsorted.and hnodup).imp (fun {a b} h => Nat.lt_of_le_of_ne h.1 (Ne.symm h.2))

theorem Log_List_roundtrip_witness :
    ((sqliteStore.List (LogAll (fun _ => none) 0 New threeRows).2 quietEnv 0 2000 []).sent).Perm
        threeRows ∧
      ((sqliteStore.List (LogAll (fun _ => none) 0 New threeRows).2 quietEnv 0 2000 []).sent).Sorted
        (fun a b => b.TS < a.TS) ∧
      (sqliteStore.List (LogAll (fun _ => none) 0 New threeRows).2 quietEnv 0 2000 []).closed = true ∧
      (sqliteStore.List (LogAll (fun _ => none) 0 New threeRows).2 quietEnv 0 2000 []).outcome =
        .returned none :=
  Log_List_roundtrip threeRows (fun _ => none) quietEnv 0 2000 (by decide) (by decide)
    (by decide) quietEnv_neverCancelled quietEnv_dbOk quietEnv_receiverReady

/-- C3: on a store holding the records logged (every `Log` returning `nil`), a full-range
`List` call filtered to device `A` delivers only records whose `Device` is `A`, as many
as were logged for `A`; a full-range `List` call filtered to a device `C` for which no
record was logged delivers nothing, closes the channel and returns `nil`. -/
theorem List_device_filter (recs : List Message) (fault : Nat → Option Error)
    (env : ListEnv) (since til : Int) (A C : String)
    (hlog : ∀ e ∈ (LogAll fault 0 New recs).1, e = none)
    (hwin : ∀ r ∈ recs, since ≤ (r.TS : Int) ∧ (r.TS : Int) < til)
    (hctx : env.neverCancelled) (hdb : env.dbOk) (hrecv : env.receiverReady)
    (hC : ∀ r ∈ recs, r.Device ≠ C) :
    (∀ m ∈ (sqliteStore.List (LogAll fault 0 New recs).2 env since til [A]).sent,
        m.Device = A) ∧
      ((sqliteStore.List (LogAll fault 0 New recs).2 env since til [A]).sent).length =
        recs.countP (fun r => decide (r.Device = A)) ∧
      (sqliteStore.List (LogAll fault 0 New recs).2 env since til [C]).sent = [] ∧
      (sqliteStore.List (LogAll fault 0 New recs).2 env since til [C]).closed = true ∧
      (sqliteStore.List (LogAll fault 0 New recs).2 env since til [C]).outcome =
        .returned none := by
  have htbl : (LogAll fault 0 New recs).2 = recs := by
    rw [LogAll_all_nil fault recs 0 New hlog]; simp [New]
  rw [htbl, List_ready recs env since til [A] hctx hdb hrecv,
    List_ready recs env since til [C] hctx hdb hrecv]
  have hA : (queryRows recs since til [A]).Perm (recs.filter fun r => decide (r.Device = A)) := by
    have h := queryRows_perm recs since til [A]
    rwa [filter_requested_device recs since til A [] hwin] at h
  have hCperm : (queryRows recs since til [C]).Perm (recs.filter fun r => decide (r.Device = C)) := by
    have h := queryRows_perm recs since til [C]
    rwa [filter_requested_device recs since til C [] hwin] at h
  have hnone : (recs.filter fun r => decide (r.Device = C)) = [] := by
    rw [List.filter_eq_nil_iff]
    intro r hr
    simpa using hC r hr
  refine ⟨?_, ?_, ?_, rfl, rfl⟩
  · intro m hm
    have := (hA.mem_iff.mp hm)
    simpa using (List.mem_filter.mp this).2
  · rw [hA.length_eq, List.countP_eq_length_filter]
  · rw [hnone] at hCperm
    exact hCperm.eq_nil

theorem List_device_filter_witness :
    (∀ m ∈ (sqliteStore.List (LogAll (fun _ => none) 0 New mixedRows).2 quietEnv 0 2000
        ["foo"]).sent, m.Device = "foo") ∧
      ((sqliteStore.List (LogAll (fun _ => none) 0 New mixedRows).2 quietEnv 0 2000
        ["foo"]).sent).length = 3 ∧
      (sqliteStore.List (LogAll (fun _ => none) 0 New mixedRows).2 quietEnv 0 2000
        ["nonexist"]).sent = [] :=
  have h := List_device_filter mixedRows (fun _ => none) quietEnv 0 2000 "foo" "nonexist"
    (by decide) (by decide) quietEnv_neverCancelled quietEnv_dbOk quietEnv_receiverReady
    (by decide)
  ⟨h.1, h.2.1, h.2.2.1⟩

/-- C4: when the context is already cancelled at the call, `List` sends nothing, closes
`msgChan` and returns `ErrListCancelled`, which is not `nil`, and runs no query, whatever
the store holds and whatever the arguments are. -/
theorem List_cancelled_before_query (tbl : Table) (env : ListEnv) (since til : Int)
    (device : List String) (h : env.cancelledAtEntry = true) :
    (sqliteStore.List tbl env since til device).sent = [] ∧
      (sqliteStore.List tbl env since til device).closed = true ∧
      (sqliteStore.List tbl env since til device).outcome =
        .returned (some .ErrListCancelled) ∧
      (sqliteStore.List tbl env since til device).outcome ≠ .returned none ∧
      (sqliteStore.List tbl env since til device).queries = 0 := by
  simp [sqliteStore.List, sqliteStore.listBody, h]

theorem List_cancelled_before_query_witness :
    (threeRows.filter (requested 0 2000 [])).length = 3 ∧
      (sqliteStore.List threeRows cancelledEnv 0 2000 []).sent = [] ∧
      (sqliteStore.List threeRows cancelledEnv 0 2000 []).outcome =
        .returned (some .ErrListCancelled) :=
  have h := List_cancelled_before_query threeRows cancelledEnv 0 2000 [] rfl
  ⟨by decide, h.1, h.2.2.1⟩

theorem listLoop_cancelled_no_room (env : ListEnv) (i : Nat) (row : Message)
    (rows : List Message) (hscan : env.scanErr i = none) (hdone : (env.sel i).ctxDone = true)
    (hfull : (env.sel i).canSend = false) :
    sqliteStore.listLoop env i (row :: rows) = ([], .returned (some .ErrListCancelled)) := by
  simp [sqliteStore.listLoop, hscan, select2, hdone, hfull]

theorem listLoop_cancelled_done_picked (env : ListEnv) (i : Nat) (row : Message)
    (rows : List Message) (hscan : env.scanErr i = none) (hdone : (env.sel i).ctxDone = true)
    (hpick : (env.sel i).pickSend = false) :
    sqliteStore.listLoop env i (row :: rows) = ([], .returned (some .ErrListCancelled)) := by
  cases hs : (env.sel i).canSend <;> simp [sqliteStore.listLoop, hscan, select2, hdone, hpick, hs]

/-- C5, the code at the failing input: the context is cancelled after the first of three
rows was sent and `msgChan` has room, so at the next `select` both cases are ready; the
runtime may pick the send each time, and then the two remaining rows are sent after the
cancellation and `List` returns `nil`, not `ErrListCancelled`. -/
theorem List_sends_after_cancel :
    lateCancelEnv.cancelledAtEntry = false ∧
      (lateCancelEnv.sel 0).ctxDone = false ∧
      (∀ i, 1 ≤ i → (lateCancelEnv.sel i).ctxDone = true) ∧
      (sqliteStore.List threeRows lateCancelEnv 0 2000 []).sent =
        [⟨1002, "foo", "bar number 2"⟩, ⟨1001, "foo", "bar number 1"⟩,
         ⟨1000, "foo", "bar number 0"⟩] ∧
      (sqliteStore.List threeRows lateCancelEnv 0 2000 []).outcome = .returned none := by
  refine ⟨rfl, rfl, ?_, by decide, by decide⟩
  intro i hi
  simp [lateCancelEnv, hi]

/-! ## Theorems: `logSerial` -/

theorem logCalls_append (a b : List Event) : logCalls (a ++ b) = logCalls a ++ logCalls b := by
  induction a with
  | nil => rfl
  | cons e a ih => cases e <;> simp [logCalls, ih]

theorem readLoop_count (now : Nat → Int) (fault : Nat → Option Error) (dev : String)
    (lines : List (List Char)) :
    ∀ n tbl, (readLoop now fault dev lines n tbl).2.1 = n + lines.length := by
  induction lines with
  | nil => intro n tbl; simp [readLoop]
  | cons l ls ih =>
    intro n tbl
    simp only [readLoop, List.length_cons]
    rw [ih]
    omega

theorem readLoop_events_indep (now : Nat → Int) (fault fault' : Nat → Option Error)
    (dev : String) (lines : List (List Char)) :
    ∀ n tbl tbl', (readLoop now fault dev lines n tbl).1 =
      (readLoop now fault' dev lines n tbl').1 := by
  induction lines with
  | nil => intro n tbl tbl'; simp [readLoop]
  | cons l ls ih =>
    intro n tbl tbl'
    simp only [readLoop]
    rw [ih (n + 1) _ (sqliteStore.Log tbl' (fault' n) ⟨uint64 (now n), dev, String.mk l⟩).2]

theorem logSerial_events_indep (now : Nat → Int) (fault fault' : Nat → Option Error)
    (dev : String) (script : List OpenResult) :
    ∀ n tbl tbl', (logSerial now fault dev script n tbl).1 =
      (logSerial now fault' dev script n tbl').1 := by
  induction script with
  | nil => intro n tbl tbl'; simp [logSerial]
  | cons r more ih =>
    intro n tbl tbl'
    cases r with
    | failed err =>
      simp only [logSerial]
      rw [ih n tbl tbl']
    | port data =>
      simp only [logSerial]
      rw [readLoop_count now fault, readLoop_count now fault',
        readLoop_events_indep now fault fault' dev _ n tbl tbl',
        ih _ _ (readLoop now fault' dev (ScanLines data.toList) n tbl').2.2]

theorem readLoop_logCalls_msg (now : Nat → Int) (fault : Nat → Option Error) (dev : String)
    (lines : List (List Char)) :
    ∀ n tbl, (logCalls (readLoop now fault dev lines n tbl).1).map (fun m => m.Msg) =
      lines.map String.mk := by
  induction lines with
  | nil => intro n tbl; simp [readLoop, logCalls]
  | cons l ls ih =>
    intro n tbl
    simp only [readLoop, logCalls, List.map_cons]
    rw [ih]

theorem readLoop_logCalls_device (now : Nat → Int) (fault : Nat → Option Error) (dev : String)
    (lines : List (List Char)) :
    ∀ n tbl, ∀ m ∈ logCalls (readLoop now fault dev lines n tbl).1, m.Device = dev := by
  induction lines with
  | nil => intro n tbl m hm; simp [readLoop, logCalls] at hm
  | cons l ls ih =>
    intro n tbl m hm
    simp only [readLoop, logCalls, List.mem_cons] at hm
    rcases hm with rfl | hm
    · rfl
    · exact ih _ _ m hm

theorem logSerial_logCalls_msg (now : Nat → Int) (fault : Nat → Option Error) (dev : String)
    (script : List OpenResult) :
    ∀ n tbl, (logCalls (logSerial now fault dev script n tbl).1).map (fun m => m.Msg) =
      (scriptLines script).map String.mk := by
  induction script with
  | nil => intro n tbl; simp [logSerial, logCalls, scriptLines]
  | cons r more ih =>
    intro n tbl
    cases r with
    | failed err =>
      simp only [logSerial, logCalls]
      rw [ih]
      simp [scriptLines, sessionLines]
    | port data =>
      simp only [logSerial, logCalls, logCalls_append, List.map_append]
      rw [ih, readLoop_logCalls_msg]
      simp [scriptLines, sessionLines]

theorem logSerial_logCalls_device (now : Nat → Int) (fault : Nat → Option Error) (dev : String)
    (script : List OpenResult) :
    ∀ n tbl, ∀ m ∈ logCalls (logSerial now fault dev script n tbl).1, m.Device = dev := by
  induction script with
  | nil => intro n tbl m hm; simp [logSerial, logCalls] at hm
  | cons r more ih =>
    intro n tbl m hm
    cases r with
    | failed err =>
      simp only [logSerial, logCalls] at hm
      exact ih _ _ m hm
    | port data =>
      simp only [logSerial, logCalls, logCalls_append, List.mem_append] at hm
      rcases hm with hm | hm
      · exact readLoop_logCalls_device now fault dev _ _ _ m hm
      · exact ih _ _ m hm

theorem dropCR_no_newline (data : List Char) (h : '\n' ∉ data) : '\n' ∉ dropCR data := by
  unfold dropCR
  split
  · exact fun hm => h (List.mem_of_mem_dropLast hm)
  · exact h

theorem scanFrom_no_newline (data : List Char) :
    ∀ cur, '\n' ∉ cur → ∀ t ∈ scanFrom cur data, '\n' ∉ t := by
  induction data with
  | nil =>
    intro cur hcur t ht
    simp only [scanFrom] at ht
    split at ht
    · simp at ht
    · simp only [List.mem_singleton] at ht
      subst ht
      exact dropCR_no_newline _ (by simpa using hcur)
  | cons c rest ih =>
    intro cur hcur t ht
    simp only [scanFrom] at ht
    split at ht
    · simp only [List.mem_cons] at ht
      rcases ht with rfl | ht
      · exact dropCR_no_newline _ (by simpa using hcur)
      · exact ih [] (by simp) t ht
    · split at ht
      · simp at ht
      · rename_i hc _
        exact ih (c :: cur) (by simp [hcur, Ne.symm hc]) t ht

theorem byteLen_cons (c : Char) (data : List Char) :
    byteLen (c :: data) = c.utf8Size + byteLen data := by
  simp [byteLen]

theorem scanFrom_line (raw : List Char) (rest : List Char) (hraw : '\n' ∉ raw) :
    ∀ cur, byteLen cur + byteLen raw < MaxScanTokenSize →
      scanFrom cur (raw ++ '\n' :: rest) = dropCR (cur.reverse ++ raw) :: scanFrom [] rest := by
  induction raw with
  | nil => intro cur _; simp [scanFrom]
  | cons c raw ih =>
    intro cur hlen
    have hc : c ≠ '\n' := fun h => hraw (by simp [h])
    have hraw' : '\n' ∉ raw := fun h => hraw (by simp [h])
    rw [byteLen_cons] at hlen
    have hfit : ¬ MaxScanTokenSize ≤ byteLen (c :: cur) := by
      rw [byteLen_cons]; omega
    have h := ih hraw' (c :: cur) (by rw [byteLen_cons]; omega)
    simp only [List.cons_append, scanFrom, hc, hfit, if_false]
    simpa using h

theorem ScanLines_lines (raws : List (List Char))
    (h : ∀ r ∈ raws, '\n' ∉ r ∧ byteLen r < MaxScanTokenSize) :
    ScanLines ((raws.map fun r => r ++ ['\n']).flatten) = raws.map dropCR := by
  unfold ScanLines
  induction raws with
  | nil => simp [scanFrom]
  | cons r raws ih =>
    have hr := h r (by simp)
    simp only [List.map_cons, List.flatten_cons, List.append_assoc, List.singleton_append]
    rw [scanFrom_line r _ hr.1 [] (by simpa [byteLen] using hr.2),
      ih (fun x hx => h x (by simp [hx]))]
    simp

/-- C7: in every run of `logSerial`, the messages handed to `Log` are, in order, exactly
the lines read in its sessions, one call per line and no other call, each with `Device`
equal to `devicePath`; no `Msg` holds a `\n`, and on a stream of lines each ended by `\n`
the `Msg` values are those lines without the `\n` and without a `\r` before it. -/
theorem logSerial_logs_each_line (now : Nat → Int) (fault : Nat → Option Error)
    (devicePath : String) (script : List OpenResult) (n : Nat) (tbl : Table) :
    (logCalls (logSerial now fault devicePath script n tbl).1).map (fun m => m.Msg) =
        (scriptLines script).map String.mk ∧
      (∀ m ∈ logCalls (logSerial now fault devicePath script n tbl).1,
        m.Device = devicePath ∧ '\n' ∉ m.Msg.toList) ∧
      (∀ raws : List (List Char), (∀ r ∈ raws, '\n' ∉ r ∧ byteLen r < MaxScanTokenSize) →
        (logCalls (logSerial now fault devicePath
            [.port (String.mk (raws.map fun r => r ++ ['\n']).flatten)] n tbl).1).map
          (fun m => m.Msg) = raws.map fun r => String.mk (dropCR r)) := by
  refine ⟨logSerial_logCalls_msg now fault devicePath script n tbl, ?_, ?_⟩
  · intro m hm
    refine ⟨logSerial_logCalls_device now fault devicePath script n tbl m hm, ?_⟩
    have hmsg : m.Msg ∈ (scriptLines script).map String.mk := by
      rw [← logSerial_logCalls_msg now fault devicePath script n tbl]
      exact List.mem_map_of_mem _ hm
    obtain ⟨l, hl, hlm⟩ := List.mem_map.mp hmsg
    rw [← hlm]
    simp only [scriptLines, List.mem_flatten, List.mem_map] at hl
    obtain ⟨ls, ⟨r, _, hr⟩, hls⟩ := hl
    cases r with
    | failed err => simp [sessionLines] at hr; subst hr; simp at hls
    | port data =>
      simp only [sessionLines] at hr
      subst hr
      exact scanFrom_no_newline data.toList [] (by simp) l hls
  · intro raws hraws
    rw [logSerial_logCalls_msg]
    simp [scriptLines, sessionLines, ScanLines_lines raws hraws]

theorem logSerial_logs_each_line_witness :
    (logCalls (logSerial (fun _ => 5) (fun _ => none) "/dev/ttyUSB0"
        [.failed (.other "no such file"), .port "on\r\noff\n"] 0 []).1).map (fun m => m.Msg) =
        ["on", "off"] ∧
      (logCalls (logSerial (fun _ => 5) (fun _ => none) "/dev/ttyUSB0"
        [.port (String.mk ([['o', 'n', '\r'], ['o', 'f', 'f']].map fun r => r ++ ['\n']).flatten)]
        0 []).1).map (fun m => m.Msg) = ["on", "off"] :=
  have h := logSerial_logs_each_line (fun _ => 5) (fun _ => none) "/dev/ttyUSB0"
    [.failed (.other "no such file"), .port "on\r\noff\n"] 0 []
  ⟨h.1.trans (by decide), h.2.2 [['o', 'n', '\r'], ['o', 'f', 'f']] (by decide)⟩

theorem logSerial_failed_opens (now : Nat → Int) (fault : Nat → Option Error) (dev : String)
    (errs : List Error) (rest : List OpenResult) (n : Nat) (tbl : Table) :
    logSerial now fault dev (errs.map OpenResult.failed ++ rest) n tbl =
      ((errs.map (retryEvents dev)).flatten ++ (logSerial now fault dev rest n tbl).1,
        (logSerial now fault dev rest n tbl).2) := by
  induction errs with
  | nil => simp
  | cons e errs ih =>
    have h : logSerial now fault dev (OpenResult.failed e :: (errs.map OpenResult.failed ++ rest)) n tbl =
        (.openPort dev portMode :: .debugUnableToOpen dev e :: .sleep 100 ::
          (logSerial now fault dev (errs.map OpenResult.failed ++ rest) n tbl).1,
          (logSerial now fault dev (errs.map OpenResult.failed ++ rest) n tbl).2) := by
      simp only [logSerial]
    rw [List.map_cons, List.cons_append, h, ih]
    simp [retryEvents]

theorem retryEvents_counts (dev : String) (errs : List Error) :
    logCalls (errs.map (retryEvents dev)).flatten = [] ∧
      ((errs.map (retryEvents dev)).flatten).count (.openPort dev portMode) = errs.length ∧
      ((errs.map (retryEvents dev)).flatten).count (.sleep 100) = errs.length := by
  induction errs with
  | nil => simp [logCalls]
  | cons e errs ih =>
    obtain ⟨h1, h2, h3⟩ := ih
    simp only [List.map_cons, List.flatten_cons, retryEvents, List.cons_append,
      List.nil_append, logCalls, List.length_cons] at h1 h2 h3 ⊢
    refine ⟨h1, ?_, ?_⟩
    · rw [List.count_cons, List.count_cons, List.count_cons, h2]; simp
    · rw [List.count_cons, List.count_cons, List.count_cons, h3]; simp

theorem readLoop_events (now : Nat → Int) (fault : Nat → Option Error) (dev : String)
    (lines : List (List Char)) :
    ∀ n tbl, (readLoop now fault dev lines n tbl).1 =
      lineEvents now dev n (lines.map String.mk) := by
  induction lines with
  | nil => intro n tbl; simp [readLoop, lineEvents]
  | cons l ls ih =>
    intro n tbl
    simp only [readLoop, List.map_cons, lineEvents]
    rw [ih]

theorem logSerial_port (now : Nat → Int) (fault : Nat → Option Error) (dev : String)
    (data : String) (more : List OpenResult) (n : Nat) (tbl : Table) :
    (logSerial now fault dev (.port data :: more) n tbl).1 =
      .openPort dev portMode ::
        (lineEvents now dev n ((ScanLines data.toList).map String.mk) ++
          .lostConnection dev ::
            (logSerial now fault dev more (n + (ScanLines data.toList).length) tbl).1) := by
  simp only [logSerial]
  rw [readLoop_events, readLoop_count,
    logSerial_events_indep now fault fault dev more _ _ tbl]

/-- C8: when opening the device fails on the first K attempts (with errors `errs`) and
then succeeds, `logSerial` makes K failed attempts, each followed by a sleep of 100 ms
and none by a `Log` call, and after the attempt that succeeds it reads the lines of the
port and logs each of them before it goes on: on a stream of lines each ended by `\n`
the run is the K retries, the attempt that succeeds, then for each line, in order, the
`Log` call with the line (without `\n` and a `\r` before it) and its report, then the
report of the lost connection and what follows. -/
theorem logSerial_retries_until_open (now : Nat → Int) (fault : Nat → Option Error)
    (devicePath : String) (errs : List Error) (data : String) (more : List OpenResult)
    (n : Nat) (tbl : Table) :
    (logSerial now fault devicePath (errs.map OpenResult.failed ++ .port data :: more) n tbl).1 =
        (errs.map (retryEvents devicePath)).flatten ++
        (.openPort devicePath portMode ::
          ((readLoop now fault devicePath (ScanLines data.toList) n tbl).1 ++
            .lostConnection devicePath ::
              (logSerial now fault devicePath more
                (readLoop now fault devicePath (ScanLines data.toList) n tbl).2.1
                (readLoop now fault devicePath (ScanLines data.toList) n tbl).2.2).1)) ∧
      logCalls (errs.map (retryEvents devicePath)).flatten = [] ∧
      ((errs.map (retryEvents devicePath)).flatten).count (.openPort devicePath portMode) =
        errs.length ∧
      ((errs.map (retryEvents devicePath)).flatten).count (.sleep 100) = errs.length ∧
      (logCalls (readLoop now fault devicePath (ScanLines data.toList) n tbl).1).map
        (fun m => m.Msg) = (ScanLines data.toList).map String.mk ∧
      (∀ raws : List (List Char), (∀ r ∈ raws, '\n' ∉ r ∧ byteLen r < MaxScanTokenSize) →
        (logSerial now fault devicePath
            (errs.map OpenResult.failed ++
              .port (String.mk (raws.map fun r => r ++ ['\n']).flatten) :: more) n tbl).1 =
          (errs.map fun e =>
            [Event.openPort devicePath portMode, .debugUnableToOpen devicePath e,
              .sleep 100]).flatten ++
          (.openPort devicePath portMode ::
            (lineEvents now devicePath n (raws.map fun r => String.mk (dropCR r)) ++
              .lostConnection devicePath ::
                (logSerial now fault devicePath more (n + raws.length) tbl).1))) := by
  refine ⟨?_, (retryEvents_counts devicePath errs).1, (retryEvents_counts devicePath errs).2.1,
    (retryEvents_counts devicePath errs).2.2, readLoop_logCalls_msg _ _ _ _ _ _, ?_⟩
  · rw [logSerial_failed_opens]
    simp only [logSerial]
  · intro raws hraws
    rw [logSerial_failed_opens, logSerial_port]
    have hscan : ScanLines (String.mk (raws.map fun r => r ++ ['\n']).flatten).toList =
        raws.map dropCR := ScanLines_lines raws hraws
    rw [hscan]
    simp only [List.map_map, List.length_map, Function.comp_def]
    rfl

theorem logSerial_retries_until_open_witness :
    (logSerial (fun k => 5 + k) (fun _ => none) "/dev/ttyUSB0"
        ([Error.other "no such file", Error.other "busy"].map OpenResult.failed ++
          .port (String.mk ([['o', 'n', '\r'], ['o', 'f', 'f']].map fun r => r ++ ['\n']).flatten)
            :: []) 0 []).1 =
      [.openPort "/dev/ttyUSB0" portMode,
       .debugUnableToOpen "/dev/ttyUSB0" (.other "no such file"), .sleep 100,
       .openPort "/dev/ttyUSB0" portMode,
       .debugUnableToOpen "/dev/ttyUSB0" (.other "busy"), .sleep 100,
       .openPort "/dev/ttyUSB0" portMode,
       .logCall ⟨5, "/dev/ttyUSB0", "on"⟩, .info "/dev/ttyUSB0" "on",
       .logCall ⟨6, "/dev/ttyUSB0", "off"⟩, .info "/dev/ttyUSB0" "off",
       .lostConnection "/dev/ttyUSB0"] :=
  ((logSerial_retries_until_open (fun k => 5 + k) (fun _ => none) "/dev/ttyUSB0"
    [Error.other "no such file", Error.other "busy"] "" [] 0 []).2.2.2.2.2
    [['o', 'n', '\r'], ['o', 'f', 'f']] (by decide)).trans (by decide)

theorem readLoop_chain (now : Nat → Int) (fault : Nat → Option Error) (dev : String)
    (tail : List Event) (htail : List.Chain follows (.lostConnection dev) tail)
    (lines : List (List Char)) :
    ∀ n tbl prev, follows prev (.lostConnection dev) → (∀ m, follows prev (.logCall m)) →
      List.Chain follows prev
        ((readLoop now fault dev lines n tbl).1 ++ .lostConnection dev :: tail) := by
  induction lines with
  | nil =>
    intro n tbl prev h1 _
    simpa [readLoop] using And.intro h1 htail
  | cons l ls ih =>
    intro n tbl prev _ h2
    simp only [readLoop, List.cons_append, List.chain_cons]
    refine ⟨h2 _, ?_, ?_⟩
    · simp [follows]
    · exact ih _ _ _ (by simp [follows]) (by simp [follows])

theorem logSerial_chain (now : Nat → Int) (fault : Nat → Option Error) (dev : String)
    (script : List OpenResult) :
    ∀ n tbl prev, (∀ d m, follows prev (.openPort d m)) →
      List.Chain follows prev (logSerial now fault dev script n tbl).1 := by
  induction script with
  | nil => intro n tbl prev _; simp [logSerial]
  | cons r more ih =>
    intro n tbl prev hprev
    cases r with
    | failed err =>
      simp only [logSerial, List.chain_cons]
      refine ⟨hprev _ _, ?_, ?_, ?_⟩
      · simp [follows]
      · simp [follows]
      · exact ih _ _ _ (by simp [follows])
    | port data =>
      simp only [logSerial, List.chain_cons]
      refine ⟨hprev _ _, ?_⟩
      apply readLoop_chain
      · exact ih _ _ _ (by simp [follows])
      · simp [follows]
      · simp [follows]

/-- C6, the claim at a concrete input: `Log` returns an error for the one line of the
session, and the run emits the same events as ever, none of which reports an error. -/
theorem logSerial_log_error_unreported :
    (sqliteStore.Log [] (some (.other "disk full")) ⟨5, "/dev/ttyUSB0", "x"⟩).1 =
        some (.other "disk full") ∧
      (logSerial (fun _ => 5) (fun _ => some (.other "disk full")) "/dev/ttyUSB0"
          [.port "x\n"] 0 []).1 =
        [.openPort "/dev/ttyUSB0" portMode, .logCall ⟨5, "/dev/ttyUSB0", "x"⟩,
         .info "/dev/ttyUSB0" "x", .lostConnection "/dev/ttyUSB0"] ∧
      ∀ ev ∈ (logSerial (fun _ => 5) (fun _ => some (.other "disk full")) "/dev/ttyUSB0"
          [.port "x\n"] 0 []).1, ev.reportedError = none := by
  decide

/-- C6 as amended: whatever `Log` returns, `logSerial` emits the events it emits when
every `Log` call succeeds, so a storage error changes nothing that is reported, and it
does not stop: `Log` is called for every line read. -/
theorem logSerial_discards_log_error (now : Nat → Int) (fault : Nat → Option Error)
    (devicePath : String) (script : List OpenResult) (n : Nat) (tbl : Table) :
    (logSerial now fault devicePath script n tbl).1 =
        (logSerial now (fun _ => none) devicePath script n tbl).1 ∧
      (logCalls (logSerial now fault devicePath script n tbl).1).length =
        (scriptLines script).length := by
  refine ⟨logSerial_events_indep now fault _ devicePath script n tbl tbl, ?_⟩
  have h := congrArg List.length (logSerial_logCalls_msg now fault devicePath script n tbl)
  simpa using h

/-- C9, the claim at a concrete input: the first session ends at the end of the stream
and the next attempt to open the port follows the report of the lost connection at once;
the run holds no sleep at all, so none between the two attempts. -/
theorem logSerial_reopens_without_backoff :
    (logSerial (fun _ => 5) (fun _ => none) "/dev/ttyUSB0" [.port "x\n", .port ""] 0 []).1 =
        [.openPort "/dev/ttyUSB0" portMode, .logCall ⟨5, "/dev/ttyUSB0", "x"⟩,
         .info "/dev/ttyUSB0" "x", .lostConnection "/dev/ttyUSB0",
         .openPort "/dev/ttyUSB0" portMode, .lostConnection "/dev/ttyUSB0"] ∧
      ∀ ms, Event.sleep ms ∉
        (logSerial (fun _ => 5) (fun _ => none) "/dev/ttyUSB0" [.port "x\n", .port ""] 0 []).1 := by
  have h : (logSerial (fun _ => 5) (fun _ => none) "/dev/ttyUSB0"
      [.port "x\n", .port ""] 0 []).1 =
      [.openPort "/dev/ttyUSB0" portMode, .logCall ⟨5, "/dev/ttyUSB0", "x"⟩,
       .info "/dev/ttyUSB0" "x", .lostConnection "/dev/ttyUSB0",
       .openPort "/dev/ttyUSB0" portMode, .lostConnection "/dev/ttyUSB0"] := by decide
  refine ⟨h, ?_⟩
  intro ms
  rw [h]
  simp

theorem lineEvents_no_sleep (now : Nat → Int) (dev : String) (msgs : List String) :
    ∀ k, (lineEvents now dev k msgs).filter Event.isSleep = [] := by
  induction msgs with
  | nil => intro k; simp [lineEvents]
  | cons m ms ih =>
    intro k
    simp [lineEvents, Event.isSleep, ih]

theorem logSerial_attempts (now : Nat → Int) (fault : Nat → Option Error) (dev : String)
    (script : List OpenResult) :
    ∀ n tbl, ∃ segs : List (List Event),
      (logSerial now fault dev script n tbl).1 = segs.flatten ∧
        List.Forall₂ (attemptEvents now dev) script segs := by
  induction script with
  | nil => intro n tbl; exact ⟨[], by simp [logSerial], List.Forall₂.nil⟩
  | cons r more ih =>
    intro n tbl
    cases r with
    | failed err =>
      obtain ⟨segs, hflat, hall⟩ := ih n tbl
      refine ⟨[.openPort dev portMode, .debugUnableToOpen dev err, .sleep 100] :: segs, ?_,
        List.Forall₂.cons (by simp [attemptEvents]) hall⟩
      simp only [logSerial, List.flatten_cons, List.cons_append, List.nil_append, hflat]
    | port data =>
      obtain ⟨segs, hflat, hall⟩ := ih (n + (ScanLines data.toList).length) tbl
      refine ⟨(.openPort dev portMode ::
        (lineEvents now dev n ((ScanLines data.toList).map String.mk) ++
          [.lostConnection dev])) :: segs, ?_, List.Forall₂.cons ⟨n, rfl⟩ hall⟩
      rw [logSerial_port, hflat]
      simp

theorem logSerial_sleeps (now : Nat → Int) (fault : Nat → Option Error) (dev : String)
    (script : List OpenResult) :
    ∀ n tbl, (logSerial now fault dev script n tbl).1.filter Event.isSleep =
      List.replicate (script.countP OpenResult.isFailed) (.sleep 100) := by
  induction script with
  | nil => intro n tbl; simp [logSerial]
  | cons r more ih =>
    intro n tbl
    cases r with
    | failed err =>
      simp only [logSerial]
      simp [Event.isSleep, OpenResult.isFailed, ih, List.replicate_succ]
    | port data =>
      rw [logSerial_port]
      simp [Event.isSleep, OpenResult.isFailed, ih, lineEvents_no_sleep]

/-- C9 as amended: every run of `logSerial` is, attempt by attempt of the script, the
events of that attempt: a failed open is followed by its report and a sleep of 100 ms
before the next attempt, while a session on an opened device is followed by the report
of the lost connection and then by the next attempt at once; the sleeps of the run are
one sleep of 100 ms for each failed open and no other, and the order of the events is
the one `follows` allows. -/
theorem logSerial_backoff_after_failed_open (now : Nat → Int) (fault : Nat → Option Error)
    (devicePath : String) (script : List OpenResult) (n : Nat) (tbl : Table) :
    (∃ segs : List (List Event),
        (logSerial now fault devicePath script n tbl).1 = segs.flatten ∧
          List.Forall₂ (attemptEvents now devicePath) script segs) ∧
      (logSerial now fault devicePath script n tbl).1.filter Event.isSleep =
        List.replicate (script.countP OpenResult.isFailed) (.sleep 100) ∧
      List.Chain' follows (logSerial now fault devicePath script n tbl).1 := by
  refine ⟨logSerial_attempts now fault devicePath script n tbl,
    logSerial_sleeps now fault devicePath script n tbl, ?_⟩
  cases script with
  | nil => simp [logSerial]
  | cons r more =>
    have h := logSerial_chain now fault devicePath (r :: more) n tbl (.sleep 100)
      (by simp [follows])
    cases r with
    | failed err =>
      simp only [logSerial] at h ⊢
      exact (List.chain_cons.mp h).2
    | port data =>
      simp only [logSerial] at h ⊢
      exact (List.chain_cons.mp h).2

theorem logSerial_backoff_after_failed_open_witness :
    (logSerial (fun _ => 5) (fun _ => none) "/dev/ttyUSB0"
        [.port "x\n", .failed (.other "no such file"), .port ""] 0 []).1.filter Event.isSleep =
      [.sleep 100] :=
  (logSerial_backoff_after_failed_open (fun _ => 5) (fun _ => none) "/dev/ttyUSB0"
    [.port "x\n", .failed (.other "no such file"), .port ""] 0 []).2.1.trans (by decide)

/-! ## Theorems: the schema -/

/-- C10, the code at the failing input: a fragment that is one indented comment is
trimmed to its indentation, which is not the empty string, and `createSchema` executes
it; the same comment without indentation is trimmed to the empty string and skipped. -/
theorem trimCommentsAndWhitespace_indented_comment :
    trimCommentsAndWhitespace "  -- only a comment\n" = "  " ∧
      createSchema "  -- only a comment\n" (fun _ => none) = (["  "], none) ∧
      trimCommentsAndWhitespace "-- only a comment\n" = "" ∧
      createSchema "-- only a comment\n" (fun _ => none) = ([], none) := by
  decide

end Logserial
